import Mathlib

/-!
Verification development for the Autonomous QA Agent repository.

The repository is a small RAG (retrieval-augmented generation) pipeline:
documents are uploaded as bytes, parsed to text per file extension
(`app/utils/parsers.py`), split into chunks by langchain's
`RecursiveCharacterTextSplitter` with `chunk_size=1000, chunk_overlap=200`
(`app/backend/rag.py`, `streamlit_app.py`), persisted in a Chroma vector
store, retrieved by similarity search and fed to an LLM
(`app/backend/llm.py`, `app/backend/main.py`).

This file shallowly embeds those components:

* text is `List Char`, raw file content is `List Nat` (byte values);
* Python exceptions are `Except PyErr`;
* external opaque services (the embedding model, Chroma's nearest-neighbour
  search, the hosted LLM) are parameters of the operations that call them:
  a similarity search is an arbitrary function argument, an LLM invocation
  outcome is an arbitrary `Except` argument;
* the persistent filesystem is a map from directory path to the optional
  list of chunks persisted there.

Every definition is translated from the repository's source (or, for
library calls, from the behaviour of the library version the source pins),
not from the specification's words; the one spec-side definition,
`specStrictUtf8Decode`, is marked as such.
-/

set_option maxRecDepth 20000

namespace QAgent

/-! ## Small Python-flavoured utilities over `List Char` -/

/-- Python `str.strip()` whitespace set (ASCII part). -/
def isPySpace (c : Char) : Bool :=
  c == ' ' || c == '\t' || c == '\n' || c == '\r' || c == '\x0b' || c == '\x0c'

/-- Python `str.strip()`: drop whitespace from both ends. -/
def pyStrip (s : List Char) : List Char :=
  ((s.dropWhile isPySpace).reverse.dropWhile isPySpace).reverse

/-- Python `separator.join(docs)`. -/
def joinSep (sep : List Char) : List (List Char) → List Char
  | [] => []
  | [d] => d
  | d :: ds => d ++ sep ++ joinSep sep ds

/-- Total length of a list of strings. -/
def sumLens (l : List (List Char)) : Nat := (l.map List.length).sum

/-- Python `name.endswith(suffix)`. -/
def endsWith (name suffix : List Char) : Bool := decide (suffix <:+ name)

/-- Python `text.find(sub, start)`: lowest index `i ≥ start` at which `sub`
occurs in `text`, `-1` if there is none. -/
def pyFindAux (text sub : List Char) : Nat → Nat → Int
  | _, 0 => -1
  | i, fuel + 1 =>
    if sub.isPrefixOf (text.drop i) then (i : Int)
    else if i < text.length then pyFindAux text sub (i + 1) fuel
    else -1

def pyFind (text sub : List Char) (start : Nat) : Int :=
  pyFindAux text sub start (text.length + 1 - start)

/-! ## `bytes.decode('utf-8')` — strict and `errors='ignore'` modes

`utf8Step` consumes one UTF-8 sequence from the front of a byte list and
returns the decoded character (or `none` for an invalid sequence) together
with the number of bytes consumed: for an invalid sequence that is the
length of its longest valid prefix ("maximal subpart", as CPython's error
handlers resync). The byte-range checks are exactly the valid UTF-8 ranges,
so every constructed code point is a valid `Char`. -/

/-- Is `b` a UTF-8 continuation byte `0x80..0xBF`? -/
def utf8Cont (b : Nat) : Bool := 0x80 ≤ b && b < 0xC0

def utf8Step : List Nat → Option Char × Nat
  | [] => (none, 0)
  | b :: rest =>
    if b < 0x80 then (some (Char.ofNat b), 1)
    else if b < 0xC2 then (none, 1)
    else if b < 0xE0 then
      match rest with
      | b1 :: _ =>
        if utf8Cont b1 then (some (Char.ofNat ((b - 0xC0) * 64 + (b1 - 0x80))), 2)
        else (none, 1)
      | [] => (none, 1)
    else if b < 0xF0 then
      let lo := if b = 0xE0 then 0xA0 else 0x80
      let hi := if b = 0xED then 0xA0 else 0xC0
      match rest with
      | b1 :: rest1 =>
        if lo ≤ b1 && b1 < hi then
          match rest1 with
          | b2 :: _ =>
            if utf8Cont b2 then
              (some (Char.ofNat ((b - 0xE0) * 4096 + (b1 - 0x80) * 64 + (b2 - 0x80))), 3)
            else (none, 2)
          | [] => (none, 2)
        else (none, 1)
      | [] => (none, 1)
    else if b < 0xF5 then
      let lo := if b = 0xF0 then 0x90 else 0x80
      let hi := if b = 0xF4 then 0x90 else 0xC0
      match rest with
      | b1 :: rest1 =>
        if lo ≤ b1 && b1 < hi then
          match rest1 with
          | b2 :: rest2 =>
            if utf8Cont b2 then
              match rest2 with
              | b3 :: _ =>
                if utf8Cont b3 then
                  (some (Char.ofNat
                    ((b - 0xF0) * 262144 + (b1 - 0x80) * 4096 + (b2 - 0x80) * 64 + (b3 - 0x80))), 4)
                else (none, 3)
              | [] => (none, 3)
            else (none, 2)
          | [] => (none, 2)
        else (none, 1)
      | [] => (none, 1)
    else (none, 1)

/-- Strict decoding: `none` models `UnicodeDecodeError`. The fuel is an
upper bound on the number of steps; each step consumes at least one byte,
so `bs.length` steps always suffice. -/
def decodeUtf8StrictAux : Nat → List Nat → Option (List Char)
  | _, [] => some []
  | 0, _ :: _ => none
  | fuel + 1, bs =>
    match utf8Step bs with
    | (some c, n) => (decodeUtf8StrictAux fuel (bs.drop n)).map (c :: ·)
    | (none, _) => none

def decodeUtf8Strict (bs : List Nat) : Option (List Char) :=
  decodeUtf8StrictAux bs.length bs

/-- `errors='ignore'` decoding: undecodable byte sequences are skipped. -/
def decodeUtf8IgnoreAux : Nat → List Nat → List Char
  | _, [] => []
  | 0, _ :: _ => []
  | fuel + 1, bs =>
    match utf8Step bs with
    | (some c, n) => c :: decodeUtf8IgnoreAux fuel (bs.drop n)
    | (none, n) => decodeUtf8IgnoreAux fuel (bs.drop (max n 1))

def decodeUtf8Ignore (bs : List Nat) : List Char :=
  decodeUtf8IgnoreAux bs.length bs

/-! ## `json.loads` / `json.dumps(..., indent=2)`

A shallow embedding of the Python `json` stdlib calls made by
`parse_json`. JSON numbers without fraction or exponent become `int`
(Python bigints, exact); others become `float m e` denoting `m * 10^e`.
Python renders floats with `repr` (IEEE-754 shortest round-trip); that is
not shallowly embeddable, so `jFloatRender` prints the exact decimal value
instead — no claim depends on float formatting. Python's `NaN/Infinity`
extensions and lone surrogates in `\uXXXX` escapes are likewise outside
the embedding (a `Char` cannot hold a surrogate). -/

inductive JValue where
  | null : JValue
  | bool : Bool → JValue
  | int : Int → JValue
  | float : Int → Int → JValue
  | str : List Char → JValue
  | arr : List JValue → JValue
  | obj : List (List Char × JValue) → JValue

/-- JSON whitespace accepted by `json.loads`. -/
def jIsWs (c : Char) : Bool := c == ' ' || c == '\t' || c == '\n' || c == '\r'

def jSkipWs (s : List Char) : List Char := s.dropWhile jIsWs

def isDigitChar (c : Char) : Bool := '0' ≤ c && c ≤ '9'

def digitsToNat (ds : List Char) : Nat :=
  ds.foldl (fun acc c => acc * 10 + (c.toNat - '0'.toNat)) 0

def hexVal (c : Char) : Option Nat :=
  if '0' ≤ c && c ≤ '9' then some (c.toNat - 48)
  else if 'a' ≤ c && c ≤ 'f' then some (c.toNat - 87)
  else if 'A' ≤ c && c ≤ 'F' then some (c.toNat - 55)
  else none

def hex4Val (h1 h2 h3 h4 : Char) : Option Nat :=
  match hexVal h1, hexVal h2, hexVal h3, hexVal h4 with
  | some a, some b, some c, some d => some (a * 4096 + b * 256 + c * 16 + d)
  | _, _, _, _ => none

/-- Parse a JSON string body (opening quote already consumed); returns the
decoded characters and the remaining input. Unescaped control characters
are rejected (`strict=True`, the `json.loads` default); `\uXXXX` escapes
are decoded, combining surrogate pairs as CPython does. -/
def jParseStringAux : Nat → List Char → Option (List Char × List Char)
  | 0, _ => none
  | _, [] => none
  | fuel + 1, c :: rest =>
    if c = '"' then some ([], rest)
    else if c = '\\' then
      match rest with
      | [] => none
      | e :: rest2 =>
        if e = '"' then (jParseStringAux fuel rest2).map (fun p => ('"' :: p.1, p.2))
        else if e = '\\' then (jParseStringAux fuel rest2).map (fun p => ('\\' :: p.1, p.2))
        else if e = '/' then (jParseStringAux fuel rest2).map (fun p => ('/' :: p.1, p.2))
        else if e = 'b' then (jParseStringAux fuel rest2).map (fun p => ('\x08' :: p.1, p.2))
        else if e = 'f' then (jParseStringAux fuel rest2).map (fun p => ('\x0c' :: p.1, p.2))
        else if e = 'n' then (jParseStringAux fuel rest2).map (fun p => ('\n' :: p.1, p.2))
        else if e = 'r' then (jParseStringAux fuel rest2).map (fun p => ('\r' :: p.1, p.2))
        else if e = 't' then (jParseStringAux fuel rest2).map (fun p => ('\t' :: p.1, p.2))
        else if e = 'u' then
          match rest2 with
          | h1 :: h2 :: h3 :: h4 :: rest3 =>
            match hex4Val h1 h2 h3 h4 with
            | none => none
            | some n =>
              if 0xD800 ≤ n && n < 0xDC00 then
                match rest3 with
                | '\\' :: 'u' :: g1 :: g2 :: g3 :: g4 :: rest4 =>
                  match hex4Val g1 g2 g3 g4 with
                  | some m =>
                    if 0xDC00 ≤ m && m < 0xE000 then
                      (jParseStringAux fuel rest4).map (fun p =>
                        (Char.ofNat (0x10000 + (n - 0xD800) * 1024 + (m - 0xDC00)) :: p.1, p.2))
                    else (jParseStringAux fuel rest3).map (fun p => (Char.ofNat n :: p.1, p.2))
                  | none => (jParseStringAux fuel rest3).map (fun p => (Char.ofNat n :: p.1, p.2))
                | _ => (jParseStringAux fuel rest3).map (fun p => (Char.ofNat n :: p.1, p.2))
              else (jParseStringAux fuel rest3).map (fun p => (Char.ofNat n :: p.1, p.2))
          | _ => none
        else none
    else if c.toNat < 0x20 then none
    else (jParseStringAux fuel rest).map (fun p => (c :: p.1, p.2))

/-- Parse a JSON number. Leading zeros are rejected as in `json.loads`;
a fraction or exponent makes it a float. -/
def jParseNumber (s : List Char) : Option (JValue × List Char) :=
  let (neg, s1) := match s with
    | '-' :: r => (true, r)
    | _ => (false, s)
  match s1 with
  | [] => none
  | c0 :: _ =>
    if ¬ (isDigitChar c0 = true) then none
    else
      let ip := s1.takeWhile isDigitChar
      let s2 := s1.dropWhile isDigitChar
      if ip.length > 1 ∧ ip.headI = '0' then none
      else
        let fracStep : Option (List Char × List Char) := match s2 with
          | '.' :: r =>
            let ds := r.takeWhile isDigitChar
            if ds = [] then none else some (ds, r.dropWhile isDigitChar)
          | _ => some ([], s2)
        match fracStep with
        | none => none
        | some (fr, s3) =>
          let expStep : Option (Option Int × List Char) := match s3 with
            | 'e' :: r | 'E' :: r =>
              let (esign, r2) : Bool × List Char := match r with
                | '-' :: r' => (true, r')
                | '+' :: r' => (false, r')
                | _ => (false, r)
              let ds := r2.takeWhile isDigitChar
              if ds = [] then none
              else
                let ev : Int := (digitsToNat ds : Int)
                some (some (if esign then -ev else ev), r2.dropWhile isDigitChar)
            | _ => some (none, s3)
          match expStep with
          | none => none
          | some (ex, s4) =>
            if fr = [] ∧ ex = none then
              let v : Int := (digitsToNat ip : Int)
              some (.int (if neg then -v else v), s4)
            else
              let m : Int := (digitsToNat (ip ++ fr) : Int)
              let e : Int := ex.getD 0 - (fr.length : Int)
              some (.float (if neg then -m else m) e, s4)

/-- `dict` insertion: replace an existing key in place, else append. -/
def jInsertKV : List (List Char × JValue) → List Char → JValue →
    List (List Char × JValue)
  | [], k, v => [(k, v)]
  | (k', v') :: rest, k, v =>
    if k' = k then (k', v) :: rest else (k', v') :: jInsertKV rest k v

mutual

def jParseValue : Nat → List Char → Option (JValue × List Char)
  | 0, _ => none
  | fuel + 1, s =>
    match jSkipWs s with
    | [] => none
    | '\x7b' :: rest =>
      match jSkipWs rest with
      | '\x7d' :: rest2 => some (.obj [], rest2)
      | rest2 => jParseMembers fuel rest2 []
    | '[' :: rest =>
      match jSkipWs rest with
      | ']' :: rest2 => some (.arr [], rest2)
      | rest2 => jParseItems fuel rest2 []
    | '"' :: rest =>
      (jParseStringAux (rest.length + 1) rest).map (fun p => (.str p.1, p.2))
    | 't' :: 'r' :: 'u' :: 'e' :: rest => some (.bool true, rest)
    | 'f' :: 'a' :: 'l' :: 's' :: 'e' :: rest => some (.bool false, rest)
    | 'n' :: 'u' :: 'l' :: 'l' :: rest => some (.null, rest)
    | s' => jParseNumber s'

/-- Object members; duplicate keys keep the first position with the last
value, like a Python `dict`. -/
def jParseMembers : Nat → List Char → List (List Char × JValue) →
    Option (JValue × List Char)
  | 0, _, _ => none
  | fuel + 1, s, acc =>
    match jSkipWs s with
    | '"' :: rest =>
      match jParseStringAux (rest.length + 1) rest with
      | none => none
      | some (key, rest2) =>
        match jSkipWs rest2 with
        | ':' :: rest3 =>
          match jParseValue fuel rest3 with
          | none => none
          | some (v, rest4) =>
            let acc2 := jInsertKV acc key v
            match jSkipWs rest4 with
            | ',' :: rest5 => jParseMembers fuel rest5 acc2
            | '\x7d' :: rest5 => some (.obj acc2, rest5)
            | _ => none
        | _ => none
    | _ => none

def jParseItems : Nat → List Char → List JValue → Option (JValue × List Char)
  | 0, _, _ => none
  | fuel + 1, s, acc =>
    match jParseValue fuel s with
    | none => none
    | some (v, rest) =>
      match jSkipWs rest with
      | ',' :: rest2 => jParseItems fuel rest2 (acc ++ [v])
      | ']' :: rest2 => some (.arr (acc ++ [v]), rest2)
      | _ => none

end

/-- `json.loads`: parse one value, require only whitespace after it;
`none` models `json.JSONDecodeError`. -/
def jsonLoads (s : List Char) : Option JValue :=
  match jParseValue (2 * s.length + 8) s with
  | none => none
  | some (v, rest) => if jSkipWs rest = [] then some v else none

def natToDigits (n : Nat) : List Char := Nat.toDigits 10 n

def intToChars (i : Int) : List Char :=
  if i < 0 then '-' :: natToDigits i.natAbs else natToDigits i.natAbs

def stripTrailingZeros (s : List Char) : List Char :=
  (s.reverse.dropWhile (· == '0')).reverse

/-- Decimal rendering of `m * 10 ^ e` (see the section comment on floats). -/
def jFloatRender (m e : Int) : List Char :=
  let sign : List Char := if m < 0 then ['-'] else []
  let dAbs := m.natAbs
  if 0 ≤ e then
    sign ++ natToDigits dAbs ++ List.replicate e.toNat '0' ++ '.' :: ['0']
  else
    let k := (-e).toNat
    let ds0 := natToDigits dAbs
    let ds := if ds0.length ≤ k then List.replicate (k + 1 - ds0.length) '0' ++ ds0 else ds0
    let ipart := ds.take (ds.length - k)
    let fpart0 := stripTrailingZeros (ds.drop (ds.length - k))
    let fpart := if fpart0 = [] then ['0'] else fpart0
    sign ++ ipart ++ '.' :: fpart

def hexDigitChar (k : Nat) : Char := "0123456789abcdef".data.getD k '0'

def hex4Chars (n : Nat) : List Char :=
  [hexDigitChar (n / 4096 % 16), hexDigitChar (n / 256 % 16),
   hexDigitChar (n / 16 % 16), hexDigitChar (n % 16)]

/-- `json.dumps` escaping with the default `ensure_ascii=True`: ASCII
printables pass through, everything else becomes an escape. -/
def jEscapeChar (c : Char) : List Char :=
  if c = '"' then ['\\', '"']
  else if c = '\\' then ['\\', '\\']
  else if c = '\n' then ['\\', 'n']
  else if c = '\r' then ['\\', 'r']
  else if c = '\t' then ['\\', 't']
  else if c.toNat = 8 then ['\\', 'b']
  else if c.toNat = 12 then ['\\', 'f']
  else if c.toNat < 0x20 || c.toNat > 0x7e then
    if c.toNat ≤ 0xffff then '\\' :: 'u' :: hex4Chars c.toNat
    else
      let v := c.toNat - 0x10000
      ('\\' :: 'u' :: hex4Chars (0xd800 + v / 1024)) ++
        ('\\' :: 'u' :: hex4Chars (0xdc00 + v % 1024))
  else [c]

def jEscapeString (s : List Char) : List Char :=
  '"' :: (s.flatMap jEscapeChar ++ ['"'])

mutual

/-- `json.dumps(v, indent=2)` at nesting depth `d`: containers spread one
item per line, indented by `2 * (d + 1)` spaces, with `", "`-free item
separators (`,` + newline) and `": "` key separators — the stdlib's
behaviour for an integral `indent`. -/
def jDump (d : Nat) : JValue → List Char
  | .null => "null".data
  | .bool true => "true".data
  | .bool false => "false".data
  | .int i => intToChars i
  | .float m e => jFloatRender m e
  | .str s => jEscapeString s
  | .arr [] => "[]".data
  | .arr (x :: xs) =>
    '[' :: '\n' :: (jDumpItems d (x :: xs) ++ '\n' :: (List.replicate (2 * d) ' ' ++ [']']))
  | .obj [] => ['\x7b', '\x7d']
  | .obj (kv :: kvs) =>
    '\x7b' :: '\n' :: (jDumpMembers d (kv :: kvs) ++ '\n' :: (List.replicate (2 * d) ' ' ++ ['\x7d']))

def jDumpItems (d : Nat) : List JValue → List Char
  | [] => []
  | [x] => List.replicate (2 * (d + 1)) ' ' ++ jDump (d + 1) x
  | x :: y :: xs =>
    List.replicate (2 * (d + 1)) ' ' ++ jDump (d + 1) x ++
      ',' :: '\n' :: jDumpItems d (y :: xs)

def jDumpMembers (d : Nat) : List (List Char × JValue) → List Char
  | [] => []
  | [(k, v)] =>
    List.replicate (2 * (d + 1)) ' ' ++ jEscapeString k ++ ':' :: ' ' :: jDump (d + 1) v
  | (k, v) :: kv :: kvs =>
    List.replicate (2 * (d + 1)) ' ' ++ jEscapeString k ++ ':' :: ' ' :: jDump (d + 1) v ++
      ',' :: '\n' :: jDumpMembers d (kv :: kvs)

end

def jsonDumpsIndent2 (v : JValue) : List Char := jDump 0 v

/-! ## `app/utils/parsers.py` -/

/-- Python exceptions that the operations of this program can raise. -/
inductive PyErr where
  | unicodeDecodeError : PyErr
  | jsonDecodeError : PyErr
  | invokeError : List Char → PyErr
deriving DecidableEq

/-- Modelled from the spec: the spec-side description of the `.md`, `.txt`
and `.html` branches — "the strict UTF-8 decoding of the bytes".
The source-side definitions below are compared against it. -/
def specStrictUtf8Decode (content : List Nat) : Except PyErr (List Char) :=
  match decodeUtf8Strict content with
  | some s => .ok s
  | none => .error .unicodeDecodeError

/-- `parse_text`: `file_content.decode('utf-8')`. -/
def parse_text (content : List Nat) : Except PyErr (List Char) :=
  match decodeUtf8Strict content with
  | some s => .ok s
  | none => .error .unicodeDecodeError

/-- `parse_markdown`: `file_content.decode('utf-8')`. -/
def parse_markdown (content : List Nat) : Except PyErr (List Char) :=
  match decodeUtf8Strict content with
  | some s => .ok s
  | none => .error .unicodeDecodeError

/-- `parse_json`: `json.dumps(json.loads(file_content.decode('utf-8')), indent=2)`. -/
def parse_json (content : List Nat) : Except PyErr (List Char) :=
  match decodeUtf8Strict content with
  | none => .error .unicodeDecodeError
  | some s =>
    match jsonLoads s with
    | none => .error .jsonDecodeError
    | some v => .ok (jsonDumpsIndent2 v)

/-- The `BeautifulSoup(file_content, 'html.parser')` object built by
`parse_html`. `html.parser` is lenient and total on arbitrary bytes, and
the soup is never used afterwards, so its internal structure is irrelevant
to every result of the program; we keep only the raw input. -/
structure Soup where
  raw : List Nat

def beautifulSoup (content : List Nat) : Soup := ⟨content⟩

/-- `parse_html`: builds a soup, then returns `file_content.decode('utf-8')`
(the commented-out alternative of extracting text was not taken). -/
def parse_html (content : List Nat) : Except PyErr (List Char) :=
  let _soup := beautifulSoup content
  match decodeUtf8Strict content with
  | some s => .ok s
  | none => .error .unicodeDecodeError

/-- `parse_document` (backend, `app/utils/parsers.py`): dispatch on the
filename extension; unknown extensions decode with `errors='ignore'`. -/
def parse_document (filename : List Char) (content : List Nat) :
    Except PyErr (List Char) :=
  if endsWith filename ".md".data then parse_markdown content
  else if endsWith filename ".txt".data then parse_text content
  else if endsWith filename ".json".data then parse_json content
  else if endsWith filename ".html".data then parse_html content
  else .ok (decodeUtf8Ignore content)

/-- `parse_document` (streamlit, `streamlit_app.py` lines 32-41): the same
dispatch with the branch bodies inlined and no soup construction. -/
def parse_documentS (filename : List Char) (content : List Nat) :
    Except PyErr (List Char) :=
  if endsWith filename ".md".data || endsWith filename ".txt".data then
    match decodeUtf8Strict content with
    | some s => .ok s
    | none => .error .unicodeDecodeError
  else if endsWith filename ".json".data then
    match decodeUtf8Strict content with
    | none => .error .unicodeDecodeError
    | some s =>
      match jsonLoads s with
      | none => .error .jsonDecodeError
      | some v => .ok (jsonDumpsIndent2 v)
  else if endsWith filename ".html".data then
    match decodeUtf8Strict content with
    | some s => .ok s
    | none => .error .unicodeDecodeError
  else .ok (decodeUtf8Ignore content)

/-! ## langchain `RecursiveCharacterTextSplitter`

Both ingestion implementations construct
`RecursiveCharacterTextSplitter(chunk_size=1000, chunk_overlap=200,
length_function=len)` (rag.py additionally passes `add_start_index=True`)
and call `split_documents`. The splitter's defaults apply:
`separators=["\n\n", "\n", " ", ""]`, `keep_separator=True`,
`is_separator_regex=False` (separators are `re.escape`d, i.e. plain
substrings), `strip_whitespace=True`.

`_split_text` picks the first separator occurring in the text (`""` always
matches and ends the list), splits keeping the separator attached to the
right-hand piece, accumulates pieces shorter than `chunk_size` and merges
them (`_merge_splits`), and recurses with the remaining separators on
oversized pieces. `_merge_splits` joins accumulated pieces with `""`
(because `keep_separator=True`), flushing a chunk when the running total
would exceed `chunk_size` and then popping pieces from the front while the
total exceeds `chunk_overlap` (or still would not fit). -/

/-- `re.search(re.escape(sep), text)` succeeds / prefix split: first
occurrence of `sep` in `text` as `(before, after)`. Callers guarantee
`sep ≠ []`. -/
def splitFirst (sep : List Char) : List Char → Option (List Char × List Char)
  | [] => none
  | c :: cs =>
    if sep.isPrefixOf (c :: cs) then some ([], (c :: cs).drop sep.length)
    else
      match splitFirst sep cs with
      | none => none
      | some (pre, suf) => some (c :: pre, suf)

def subOccurs (sep text : List Char) : Bool := (splitFirst sep text).isSome

/-- `re.split` on a literal separator: the pieces between leftmost
non-overlapping occurrences. Each match consumes at least one character,
so `text.length + 1` steps of fuel always suffice. -/
def splitOnSubFuel : Nat → List Char → List Char → List (List Char)
  | 0, _, text => [text]
  | fuel + 1, sep, text =>
    match splitFirst sep text with
    | none => [text]
    | some (pre, suf) => pre :: splitOnSubFuel fuel sep suf

def splitOnSub (sep text : List Char) : List (List Char) :=
  splitOnSubFuel (text.length + 1) sep text

/-- `_split_text_with_regex(text, re.escape(sep), keep_separator=True)`:
for `sep = ""` the characters of the text; otherwise the first piece
followed by the later pieces each with the separator re-attached in front;
empty strings are dropped. -/
def splitWithKeep (sep text : List Char) : List (List Char) :=
  if sep = [] then (text.map (fun c => [c])).filter (fun l => !l.isEmpty)
  else
    match splitOnSub sep text with
    | [] => []
    | p :: ps => (p :: ps.map (sep ++ ·)).filter (fun l => !l.isEmpty)

/-- The separator-selection loop at the top of `_split_text`: the first
separator that is `""` or occurs in the text is chosen together with the
remaining separators; if none matches the last separator is kept with no
remainder. -/
def chooseSep (text : List Char) : List (List Char) → List Char × List (List Char)
  | [] => ([], [])
  | [s] => (s, [])
  | s :: s2 :: rest =>
    if s = [] then ([], [])
    else if subOccurs s text then (s, s2 :: rest)
    else chooseSep text (s2 :: rest)

/-- The popping `while` loop inside `_merge_splits`, run after a chunk is
flushed: drop pieces from the front while the total exceeds
`chunk_overlap`, or appending the next piece (of length `dlen`) would
still exceed `chunk_size` with a positive total. (Python would fault on an
empty `current_doc`; that state is unreachable because the total is then
`0`, and the embedding returns the state unchanged.) -/
def popLoop (cs ov sepLen dlen : Nat) : List (List Char) → Nat →
    List (List Char) × Nat
  | [], total => ([], total)
  | c :: cur2, total =>
    if total > ov ∨ (total + dlen + sepLen > cs ∧ 0 < total) then
      popLoop cs ov sepLen dlen cur2
        (total - (c.length + if cur2 = [] then 0 else sepLen))
    else (c :: cur2, total)

/-- `_join_docs`: join with the separator, strip whitespace, and drop the
chunk entirely when it strips to the empty string. -/
def joinDocs (sep : List Char) (docs : List (List Char)) : Option (List Char) :=
  let text := pyStrip (joinSep sep docs)
  if text = [] then none else some text

/-- The main loop of `_merge_splits` over the pieces `ds`, carrying the
accumulated `current` pieces and the running `total` length. -/
def mergeLoop (cs ov : Nat) (sep : List Char) :
    List (List Char) → List (List Char) → Nat → List (List Char)
  | [], current, _total => (joinDocs sep current).toList
  | d :: ds, current, total =>
    if total + d.length + (if current = [] then 0 else sep.length) > cs then
      match current with
      | [] =>
        mergeLoop cs ov sep ds [d] (total + d.length)
      | c0 :: currest =>
        let flushed := (joinDocs sep (c0 :: currest)).toList
        let pr := popLoop cs ov sep.length d.length (c0 :: currest) total
        flushed ++ mergeLoop cs ov sep ds (pr.1 ++ [d])
          (pr.2 + d.length + (if pr.1 = [] then 0 else sep.length))
    else
      mergeLoop cs ov sep ds (current ++ [d])
        (total + d.length + (if current = [] then 0 else sep.length))

def mergeSplits (cs ov : Nat) (sep : List Char) (splits : List (List Char)) :
    List (List Char) :=
  mergeLoop cs ov sep splits [] 0

/-- The per-piece loop of `_split_text`: pieces shorter than `chunk_size`
accumulate in `good`; an oversized piece first flushes the merged
accumulator, then is recursed on (when separators remain) or emitted raw.
The merge separator is `""` because `keep_separator=True`. -/
def goSplits (cs ov : Nat) (recurse : List Char → List (List Char))
    (hasNew : Bool) : List (List Char) → List (List Char) → List (List Char)
  | good, [] => if good = [] then [] else mergeSplits cs ov [] good
  | good, s :: rest =>
    if s.length < cs then goSplits cs ov recurse hasNew (good ++ [s]) rest
    else
      (if good = [] then [] else mergeSplits cs ov [] good) ++
        (if hasNew then recurse s else [s]) ++
        goSplits cs ov recurse hasNew [] rest

/-- `_split_text(text, separators)`. The recursion is on the strictly
shrinking separator list; `defaultSeparators.length` fuel is exact because
each recursive call passes a strict suffix and stops at `[]`. -/
def splitTextFuel (cs ov : Nat) : Nat → List (List Char) → List Char →
    List (List Char)
  | 0, _, _ => []
  | fuel + 1, seps, text =>
    let p := chooseSep text seps
    let splits := splitWithKeep p.1 text
    goSplits cs ov (splitTextFuel cs ov fuel p.2) (!p.2.isEmpty) [] splits

def defaultSeparators : List (List Char) :=
  ["\n\n".data, "\n".data, " ".data, "".data]

/-- `split_text` with the constructor arguments used by both ingestion
implementations: `chunk_size=1000, chunk_overlap=200, length_function=len`. -/
def splitText (text : List Char) : List (List Char) :=
  splitTextFuel 1000 200 defaultSeparators.length defaultSeparators text

/-! ## `split_documents` / `create_documents` -/

/-- A langchain `Document` handed to the splitter: `page_content` plus the
`source` metadata set by both ingestion implementations. -/
structure Doc where
  content : List Char
  source : List Char
deriving DecidableEq

/-- A chunk as persisted: `page_content`, the inherited `source` metadata,
and the optional `start_index` metadata, present exactly when the splitter
was built with `add_start_index=True`. -/
structure Chunk where
  text : List Char
  source : List Char
  startIndex : Option Int
deriving DecidableEq

/-- The chunk loop of `create_documents` for one document: when
`add_start_index` is set, `offset = index + previous_chunk_len -
chunk_overlap` and `index = text.find(chunk, max(0, offset))` is stored as
`start_index` (chunk_overlap is 200 here). -/
def createDocsAux (addStartIndex : Bool) (text src : List Char) :
    List (List Char) → Int → Nat → List Chunk
  | [], _, _ => []
  | c :: rest, index, prevLen =>
    if addStartIndex then
      let offset : Int := index + (prevLen : Int) - 200
      let idx := pyFind text c offset.toNat
      ⟨c, src, some idx⟩ :: createDocsAux addStartIndex text src rest idx c.length
    else
      ⟨c, src, none⟩ :: createDocsAux addStartIndex text src rest index prevLen

/-- `split_documents` = `create_documents` over the texts and metadatas:
each document's text is split and its chunks inherit the metadata. -/
def splitDocuments (addStartIndex : Bool) (docs : List Doc) : List Chunk :=
  docs.flatMap (fun d => createDocsAux addStartIndex d.content d.source (splitText d.content) 0 0)

/-! ## `app/backend/rag.py` — `RAGPipeline`

The persistent world is a map from directory path to the chunks persisted
there (`none` = the directory does not exist). A Chroma handle opened on
`persist_directory` is disk-backed: `add_documents`/`from_documents`
append to the collection stored in that directory and `persist()` flushes
it, so the handle is modelled as a flag (`vector_db ≠ None`) and the data
lives in the filesystem map. Similarity search is an external embedding
service and is passed in as an opaque function. -/

abbrev FS := List Char → Option (List Chunk)

def CHROMA_PATH : List Char := "data/chroma".data

def updateFs (fs : FS) (p : List Char) (v : Option (List Chunk)) : FS :=
  fun q => if q = p then v else fs q

structure PipelineState where
  fs : FS
  vector_db : Bool

/-- `_load_db`: both branches of its `if os.path.exists(CHROMA_PATH)`
construct `Chroma(persist_directory=CHROMA_PATH, ...)`, which opens the
collection in that directory (creating it when absent) and stores the
handle. -/
def loadDb (st : PipelineState) : PipelineState :=
  { fs := updateFs st.fs CHROMA_PATH (some ((st.fs CHROMA_PATH).getD [])),
    vector_db := true }

/-- `RAGPipeline.__init__` given the pre-existing filesystem. -/
def initPipeline (fs : FS) : PipelineState := loadDb { fs := fs, vector_db := false }

/-- `ingest_documents`: split with `add_start_index=True`; if any chunks
were produced, add them to the open store (or `Chroma.from_documents` when
the handle is `None`), `persist()`, and return their count; otherwise
return `0`. -/
def ingestDocuments (st : PipelineState) (documents : List Doc) :
    PipelineState × Nat :=
  let chunks := splitDocuments true documents
  if chunks.isEmpty then (st, 0)
  else if st.vector_db then
    ({ fs := updateFs st.fs CHROMA_PATH (some (((st.fs CHROMA_PATH).getD []) ++ chunks)),
       vector_db := true }, chunks.length)
  else
    ({ fs := updateFs st.fs CHROMA_PATH (some (((st.fs CHROMA_PATH).getD []) ++ chunks)),
       vector_db := true }, chunks.length)

/-- `retrieve_context`: `[]` when `self.vector_db` is falsy, else
`similarity_search(query, k)` on the persisted collection. -/
def retrieveContext (search : List Chunk → List Char → Nat → List Chunk)
    (st : PipelineState) (query : List Char) (k : Nat) : List Chunk :=
  if st.vector_db then search ((st.fs CHROMA_PATH).getD []) query k else []

/-- `clear_db`: `shutil.rmtree(CHROMA_PATH)` when the directory exists,
`self.vector_db = None`, then `_load_db()`. -/
def clearDb (st : PipelineState) : PipelineState :=
  let fs1 := if (st.fs CHROMA_PATH).isSome then updateFs st.fs CHROMA_PATH none else st.fs
  loadDb { fs := fs1, vector_db := false }

/-! ## `streamlit_app.py` — session-state variants

`ingest_documents` there builds the same splitter but without
`add_start_index`, always calls `Chroma.from_documents(...,
persist_directory="./chroma_db")`, and returns `(vector_db, count)` —
`(None, 0)` when no chunks were produced. -/

def STREAMLIT_CHROMA_PATH : List Char := "./chroma_db".data

def ingestDocumentsS (fs : FS) (documents : List Doc) :
    FS × Option (List Chunk) × Nat :=
  let chunks := splitDocuments false documents
  if chunks.isEmpty then (fs, none, 0)
  else
    let store := ((fs STREAMLIT_CHROMA_PATH).getD []) ++ chunks
    (updateFs fs STREAMLIT_CHROMA_PATH (some store), some store, chunks.length)

/-- streamlit `retrieve_context(vector_db, query, k)`. -/
def retrieveContextS (search : List Chunk → List Char → Nat → List Chunk)
    (db : Option (List Chunk)) (query : List Char) (k : Nat) : List Chunk :=
  match db with
  | none => []
  | some d => search d query k

/-! ## `app/backend/llm.py` — `LLMService`, and the `main.py` endpoints

The hosted LLM is opaque: a chain invocation is an `Except` outcome passed
in by the caller (`Except.error e` models the call raising, with
`str(e) = e`). `generate_test_cases` wraps its single `chain.invoke` in
`try/except` and returns `{"error": str(e)}` on failure;
`generate_selenium_script` calls `chain.invoke` with no handler, so a
raised exception propagates. -/

/-- What `generate_test_cases` can hand back to its caller. -/
inductive TCResult where
  | plainStr : List Char → TCResult
  | json : JValue → TCResult
  | errorDict : List Char → TCResult

def generateTestCases (llm : Option Unit)
    (invokeResult : Except (List Char) JValue) : Except PyErr TCResult :=
  match llm with
  | none => .ok (.plainStr "Error: LLM not configured.".data)
  | some _ =>
    match invokeResult with
    | .ok v => .ok (.json v)
    | .error e => .ok (.errorDict e)

def generateSeleniumScript (llm : Option Unit)
    (invokeResult : Except (List Char) (List Char)) : Except PyErr (List Char) :=
  match llm with
  | none => .ok "Error: LLM not configured.".data
  | some _ =>
    match invokeResult with
    | .ok s => .ok s
    | .error e => .error (.invokeError e)

/-- `main.py /upload`: parse every file (`parse_document` is not wrapped in
any handler, so a parse exception propagates out of the endpoint), then
ingest the parsed documents. -/
def parseAll : List (List Char × List Nat) → Except PyErr (List Doc)
  | [] => .ok []
  | (name, content) :: rest =>
    match parse_document name content with
    | .error e => .error e
    | .ok text => (parseAll rest).map (fun ds => ⟨text, name⟩ :: ds)

def uploadFiles (st : PipelineState) (files : List (List Char × List Nat)) :
    Except PyErr (PipelineState × Nat) :=
  (parseAll files).map (fun docs => ingestDocuments st docs)

/-- The `"Source: ...\nContent: ..."` blocks joined by blank lines, as
built by `/generate-test-cases` and `/generate-script`. -/
def contextText (docs : List Chunk) : List Char :=
  joinSep "\n\n".data
    (docs.map (fun d => "Source: ".data ++ d.source ++ "\nContent: ".data ++ d.text))

/-- `main.py /generate-test-cases`: retrieve `k=5` context, format it, and
return the `LLMService.generate_test_cases` result unchanged. -/
def endpointGenerateTestCases (search : List Chunk → List Char → Nat → List Chunk)
    (llm : Option Unit) (invoke : List Char → List Char → Except (List Char) JValue)
    (st : PipelineState) (query : List Char) : Except PyErr TCResult :=
  let ctx := contextText (retrieveContext search st query 5)
  generateTestCases llm (invoke ctx query)

/-! ## Grounding inspection (for C5)

What a grounding check on the model output *would* look at: the
`grounded_in` field of each object in the `test_cases` array, compared
with the source filenames of the ingested chunks. No code in the
repository computes any of this; the definitions exist to state that the
endpoint's result does not depend on it. -/

def jLookup (k : List Char) : List (List Char × JValue) → Option JValue
  | [] => none
  | (k', v) :: rest => if k' = k then some v else jLookup k rest

def asJStr : JValue → Option (List Char)
  | .str s => some s
  | _ => none

def testCaseGroundings (v : JValue) : List (List Char) :=
  match v with
  | .obj kvs =>
    match jLookup "test_cases".data kvs with
    | some (.arr xs) =>
      xs.filterMap (fun tc =>
        match tc with
        | .obj fields => (jLookup "grounded_in".data fields).bind asJStr
        | _ => none)
    | _ => []
  | _ => []

def ingestedSources (st : PipelineState) : List (List Char) :=
  ((st.fs CHROMA_PATH).getD []).map Chunk.source

def groundedOk (v : JValue) (sources : List (List Char)) : Bool :=
  (testCaseGroundings v).all (fun g => sources.contains g)

/-! # Claims -/

/-! ## C8 — `parse_html` ≡ `parse_text` ≡ strict UTF-8 decode -/

/-- C8: for every byte string, `parse_html` returns the same result as
`parse_text`, namely the strict UTF-8 decoding of the raw bytes: the
`BeautifulSoup` parse that `parse_html` constructs is discarded and has no
effect on the returned value. -/
theorem c8_parse_html_eq_parse_text :
    ∀ content : List Nat,
      parse_html content = parse_text content ∧
      parse_text content = specStrictUtf8Decode content := by
  intro content
  exact ⟨rfl, rfl⟩

/-! ## C9 — retrieval on an absent store -/

/-- C9: `retrieve_context` returns the empty list, without raising,
whenever the vector store is absent, for every query string, every `k`,
and every similarity-search behaviour — in the backend pipeline
(`vector_db` falsy) and in the streamlit variant (`vector_db = None`). -/
theorem c9_retrieve_absent_store_empty :
    (∀ (search : List Chunk → List Char → Nat → List Chunk)
       (st : PipelineState) (query : List Char) (k : Nat),
       st.vector_db = false → retrieveContext search st query k = []) ∧
    (∀ (search : List Chunk → List Char → Nat → List Chunk)
       (query : List Char) (k : Nat),
       retrieveContextS search none query k = []) := by
  constructor
  · intro search st query k h
    simp [retrieveContext, h]
  · intro search query k
    rfl

/-- Witness for C9 at a concrete empty pipeline state. -/
theorem c9_witness :
    ({ fs := fun _ => none, vector_db := false } : PipelineState).vector_db = false ∧
      retrieveContext (fun db _ _ => db)
        { fs := fun _ => none, vector_db := false } "login".data 3 = [] :=
  ⟨rfl, c9_retrieve_absent_store_empty.1 (fun db _ _ => db)
    { fs := fun _ => none, vector_db := false } "login".data 3 rfl⟩

/-! ## C10 — ingestion with no chunks is a no-op returning 0 -/

/-- C10: when splitting produces no chunks (in particular for an empty
document list), `ingest_documents` returns `0` and leaves the vector store
unchanged — the backend version returns the state untouched (nothing added,
nothing persisted), and the streamlit version returns `(None, 0)` with the
filesystem untouched. -/
theorem c10_no_chunks_ingest_noop :
    (∀ (st : PipelineState) (docs : List Doc),
       splitDocuments true docs = [] → ingestDocuments st docs = (st, 0)) ∧
    (∀ (fs : FS) (docs : List Doc),
       splitDocuments false docs = [] → ingestDocumentsS fs docs = (fs, none, 0)) ∧
    splitDocuments true ([] : List Doc) = [] ∧
    splitDocuments false ([] : List Doc) = [] := by
  refine ⟨?_, ?_, rfl, rfl⟩
  · intro st docs h
    simp [ingestDocuments, h]
  · intro fs docs h
    simp [ingestDocumentsS, h]

/-- Witness for C10 at the empty document list. -/
theorem c10_witness :
    splitDocuments true ([] : List Doc) = [] ∧
      ingestDocuments { fs := fun _ => none, vector_db := true } [] =
        ({ fs := fun _ => none, vector_db := true }, 0) :=
  ⟨rfl, c10_no_chunks_ingest_noop.1 { fs := fun _ => none, vector_db := true } [] rfl⟩

/-! ## C2 — error handling (corrected)

The claim says all three operations catch underlying failures and surface
them as plain strings. Only `generate_test_cases` has a `try/except`
(returning `{"error": str(e)}`, a dict); `parse_document` during `/upload`
and `generate_selenium_script` have no handler, so their exceptions
escape. -/

/-- C2 counterexample: uploading a single `.txt` file whose byte content
`[0xff]` is not valid UTF-8 makes the upload operation end in an escaped
`UnicodeDecodeError` rather than a caught string; and a failing invoke
inside script generation escapes as well. -/
theorem c2_counterexample :
    uploadFiles { fs := fun _ => none, vector_db := true }
        [("a.txt".data, [0xff])] = .error .unicodeDecodeError ∧
      generateSeleniumScript (some ()) (.error "boom".data) =
        .error (.invokeError "boom".data) :=
  ⟨rfl, rfl⟩

/-- C2 as amended: test-case generation never lets an exception escape
(every invoke outcome is turned into an `ok` value, a failure becoming the
`{"error": str(e)}` dict); script generation propagates a failing invoke
unchanged; and upload propagates a document-parsing failure unchanged. No
operation retries: each consumes its single underlying-call outcome. -/
theorem c2_amended_error_handling :
    (∀ (llm : Option Unit) (r : Except (List Char) JValue),
       (generateTestCases llm r).isOk = true) ∧
    (∀ e : List Char,
       (generateTestCases (some ()) (.error e)) = .ok (.errorDict e)) ∧
    (∀ e : List Char,
       generateSeleniumScript (some ()) (.error e) = .error (.invokeError e)) ∧
    (∀ (st : PipelineState) (files : List (List Char × List Nat)) (e : PyErr),
       parseAll files = .error e → uploadFiles st files = .error e) := by
  refine ⟨?_, fun _ => rfl, fun _ => rfl, ?_⟩
  · intro llm r
    cases llm with
    | none => rfl
    | some u => cases r <;> rfl
  · intro st files e h
    simp [uploadFiles, h, Except.map]

/-- Witness for C2's amended statement at concrete inputs. -/
theorem c2_witness :
    (generateTestCases none (.ok .null)).isOk = true ∧
      parseAll [("a.txt".data, [0xff])] = .error PyErr.unicodeDecodeError ∧
      uploadFiles { fs := fun _ => none, vector_db := true }
        [("a.txt".data, [0xff])] = .error PyErr.unicodeDecodeError :=
  ⟨c2_amended_error_handling.1 none (.ok .null), rfl,
    c2_amended_error_handling.2.2.2 { fs := fun _ => none, vector_db := true }
      [("a.txt".data, [0xff])] PyErr.unicodeDecodeError rfl⟩

/-! ## C5 — no grounding enforcement in generate-test-cases -/

/-- C5: the generate-test-cases operation performs no enforcement of the
grounding invariant: whatever JSON value the model invocation parses to —
in particular one whose `grounded_in` fields name no ingested source — the
endpoint returns it to the caller unchanged. -/
theorem c5_no_grounding_enforcement :
    ∀ (search : List Chunk → List Char → Nat → List Chunk) (st : PipelineState)
      (query : List Char)
      (invoke : List Char → List Char → Except (List Char) JValue) (v : JValue),
      invoke (contextText (retrieveContext search st query 5)) query = .ok v →
      groundedOk v (ingestedSources st) = false →
      endpointGenerateTestCases search (some ()) invoke st query = .ok (.json v) := by
  intro search st query invoke v hinv _hgrounded
  simp [endpointGenerateTestCases, hinv, generateTestCases]

/-- A model output whose single test case cites `zzz.md`. -/
def c5ModelOutput : JValue :=
  .obj [("test_cases".data,
    .arr [.obj [("id".data, .str "TC-001".data),
                ("feature".data, .str "Login".data),
                ("scenario".data, .str "Valid login".data),
                ("expected_result".data, .str "Dashboard shown".data),
                ("grounded_in".data, .str "zzz.md".data)]])]

/-- A pipeline state with one ingested chunk whose source is `a.md`. -/
def c5State : PipelineState :=
  { fs := fun p => if p = CHROMA_PATH then some [⟨"login page".data, "a.md".data, some 0⟩] else none,
    vector_db := true }

/-- Witness for C5: the cited filename `zzz.md` is not among the ingested
sources, yet the endpoint returns the parsed output unchanged. -/
theorem c5_witness :
    groundedOk c5ModelOutput (ingestedSources c5State) = false ∧
      endpointGenerateTestCases (fun db _ _ => db) (some ())
        (fun _ _ => .ok c5ModelOutput) c5State "login".data =
        .ok (.json c5ModelOutput) :=
  ⟨by decide,
    c5_no_grounding_enforcement (fun db _ _ => db) c5State "login".data
      (fun _ _ => .ok c5ModelOutput) c5ModelOutput rfl (by decide)⟩

/-! ## C6 — the only deletion is a whole-knowledge-base clear -/

theorem updateFs_same (fs : FS) (p : List Char) (v : Option (List Chunk)) :
    updateFs fs p v p = v := by
  simp [updateFs]

theorem updateFs_other (fs : FS) (p q : List Char) (v : Option (List Chunk))
    (h : q ≠ p) : updateFs fs p v q = fs q := by
  simp [updateFs, h]

theorem clearDb_fs_chroma (st : PipelineState) :
    (clearDb st).fs CHROMA_PATH = some [] := by
  cases ho : st.fs CHROMA_PATH with
  | none => simp [clearDb, loadDb, updateFs, ho]
  | some v => simp [clearDb, loadDb, updateFs, ho]

/-- C6: `clear_db` removes the persisted index directory (when it exists)
and reinitializes a fresh store — afterwards the handle is open and the
persisted collection is empty, whatever was there before; and no pipeline
operation deletes, updates or versions an individual chunk: `_load_db`
leaves every persisted chunk in place, and every ingestion extends the
persisted collection with the previous chunks as an unchanged prefix
(`retrieve_context` returns a list without touching the state at all). -/
theorem c6_only_whole_kb_clear :
    (∀ st : PipelineState,
       (clearDb st).vector_db = true ∧ (clearDb st).fs CHROMA_PATH = some []) ∧
    (∀ st : PipelineState,
       (loadDb st).fs CHROMA_PATH = some ((st.fs CHROMA_PATH).getD [])) ∧
    (∀ (st : PipelineState) (docs : List Doc),
       ((st.fs CHROMA_PATH).getD []) <+:
         (((ingestDocuments st docs).1.fs CHROMA_PATH).getD [])) := by
  refine ⟨?_, ?_, ?_⟩
  · exact fun st => ⟨rfl, clearDb_fs_chroma st⟩
  · intro st
    simp [loadDb, updateFs]
  · intro st docs
    by_cases h : (splitDocuments true docs).isEmpty
    · simp [ingestDocuments, h]
    · by_cases hdb : st.vector_db <;>
        simp [ingestDocuments, h, hdb, updateFs]

/-! ## C7 — all persistence lives in the single CHROMA_PATH directory -/

/-- C7: every ingestion writes the produced chunks to the one persist
directory `CHROMA_PATH` (`"data/chroma"`), every clear removes and
recreates it, and no pipeline operation (`_load_db`, ingestion, clear)
touches the filesystem at any other path. -/
theorem c7_single_persist_directory :
    (∀ (st : PipelineState) (docs : List Doc) (p : List Char), p ≠ CHROMA_PATH →
       (ingestDocuments st docs).1.fs p = st.fs p ∧
       (clearDb st).fs p = st.fs p ∧
       (loadDb st).fs p = st.fs p) ∧
    (∀ (st : PipelineState) (docs : List Doc), splitDocuments true docs ≠ [] →
       (ingestDocuments st docs).1.fs CHROMA_PATH =
         some (((st.fs CHROMA_PATH).getD []) ++ splitDocuments true docs)) ∧
    (∀ st : PipelineState, (clearDb st).fs CHROMA_PATH = some []) := by
  refine ⟨?_, ?_, ?_⟩
  · intro st docs p hp
    refine ⟨?_, ?_, ?_⟩
    · by_cases h : (splitDocuments true docs).isEmpty
      · simp [ingestDocuments, h]
      · by_cases hdb : st.vector_db <;> simp [ingestDocuments, h, hdb, updateFs, hp]
    · by_cases h : (st.fs CHROMA_PATH).isSome <;> simp [clearDb, loadDb, updateFs, h, hp]
    · simp [loadDb, updateFs, hp]
  · intro st docs h
    have h' : (splitDocuments true docs).isEmpty = false := by
      simpa [List.isEmpty_iff] using h
    by_cases hdb : st.vector_db <;> simp [ingestDocuments, h', hdb, updateFs]
  · exact clearDb_fs_chroma

/-- Witness for C7: at a concrete state and document, the unrelated path
`./elsewhere` is untouched by ingestion, clear and load, while the chunks
land in `CHROMA_PATH` and the clear empties it. -/
theorem c7_witness :
    ("./elsewhere".data ≠ CHROMA_PATH ∧
      splitDocuments true [⟨"hi".data, "a.md".data⟩] ≠ []) ∧
    ((ingestDocuments { fs := fun _ => none, vector_db := true }
        [⟨"hi".data, "a.md".data⟩]).1.fs "./elsewhere".data = none ∧
      (clearDb { fs := fun _ => none, vector_db := true }).fs "./elsewhere".data = none ∧
      (ingestDocuments { fs := fun _ => none, vector_db := true }
        [⟨"hi".data, "a.md".data⟩]).1.fs CHROMA_PATH =
        some (splitDocuments true [⟨"hi".data, "a.md".data⟩]) ∧
      (clearDb { fs := fun _ => none, vector_db := true }).fs CHROMA_PATH = some []) := by
  have hp : "./elsewhere".data ≠ CHROMA_PATH := by decide
  have hc : splitDocuments true [(⟨"hi".data, "a.md".data⟩ : Doc)] ≠ [] := by decide
  have h1 := (c7_single_persist_directory.1
    { fs := fun _ => none, vector_db := true } [⟨"hi".data, "a.md".data⟩]
    "./elsewhere".data hp)
  have h2 := c7_single_persist_directory.2.1
    { fs := fun _ => none, vector_db := true } [⟨"hi".data, "a.md".data⟩] hc
  have h3 := c7_single_persist_directory.2.2
    { fs := fun _ => none, vector_db := true }
  exact ⟨⟨hp, hc⟩, h1.1, h1.2.1, h2, h3⟩

/-! ## C3 — `parse_document` dispatch on the filename extension -/

theorem endsWith_getLast {name suf : List Char} (h : endsWith name suf = true)
    (hs : suf ≠ []) : name.getLast? = suf.getLast? := by
  have hsuf : suf <:+ name := of_decide_eq_true h
  obtain ⟨pre, rfl⟩ := hsuf
  exact List.getLast?_append_of_ne_nil pre hs

/-- Two extensions with different final characters cannot both be suffixes
of the same filename. -/
theorem endsWith_false_of_other {name s t : List Char} (hs : s ≠ []) (ht : t ≠ [])
    (hne : s.getLast? ≠ t.getLast?) (h1 : endsWith name s = true) :
    endsWith name t = false := by
  by_contra h
  have h2 : endsWith name t = true := by simpa using h
  exact hne ((endsWith_getLast h1 hs).symm.trans (endsWith_getLast h2 ht))

/-- C3: `parse_document` converts uploaded bytes into plain text selected
by the filename's extension: `.md`, `.txt` and `.html` filenames get the
strict UTF-8 decoding of the bytes; `.json` filenames get the JSON value
parsed from the strict decoding re-serialized with 2-space indentation;
every other filename gets the UTF-8 decoding that ignores undecodable
bytes. The streamlit copy of `parse_document` agrees with the backend one
on every input. -/
theorem c3_parse_document_dispatch :
    ∀ (name : List Char) (content : List Nat),
      ((endsWith name ".md".data = true ∨ endsWith name ".txt".data = true ∨
          endsWith name ".html".data = true) →
        parse_document name content = specStrictUtf8Decode content) ∧
      (endsWith name ".json".data = true →
        parse_document name content =
          (match decodeUtf8Strict content with
           | none => .error .unicodeDecodeError
           | some s =>
             match jsonLoads s with
             | none => .error .jsonDecodeError
             | some v => .ok (jsonDumpsIndent2 v))) ∧
      ((endsWith name ".md".data = false ∧ endsWith name ".txt".data = false ∧
          endsWith name ".json".data = false ∧ endsWith name ".html".data = false) →
        parse_document name content = .ok (decodeUtf8Ignore content)) ∧
      parse_documentS name content = parse_document name content := by
  intro name content
  refine ⟨?_, ?_, ?_, ?_⟩
  · rintro (hmd | htxt | hhtml)
    · simp only [parse_document, hmd, if_true]
      rfl
    · have hmd := endsWith_false_of_other
        (by decide : ".txt".data ≠ []) (by decide : ".md".data ≠ []) (by decide) htxt
      simp only [parse_document, hmd, htxt, if_false, if_true]
      rfl
    · have hmd := endsWith_false_of_other
        (by decide : ".html".data ≠ []) (by decide : ".md".data ≠ []) (by decide) hhtml
      have htxt := endsWith_false_of_other
        (by decide : ".html".data ≠ []) (by decide : ".txt".data ≠ []) (by decide) hhtml
      have hjson := endsWith_false_of_other
        (by decide : ".html".data ≠ []) (by decide : ".json".data ≠ []) (by decide) hhtml
      simp only [parse_document, hmd, htxt, hjson, hhtml, if_false, if_true]
      rfl
  · intro hjson
    have hmd := endsWith_false_of_other
      (by decide : ".json".data ≠ []) (by decide : ".md".data ≠ []) (by decide) hjson
    have htxt := endsWith_false_of_other
      (by decide : ".json".data ≠ []) (by decide : ".txt".data ≠ []) (by decide) hjson
    simp only [parse_document, hmd, htxt, hjson, if_false, if_true]
    rfl
  · rintro ⟨hmd, htxt, hjson, hhtml⟩
    simp [parse_document, hmd, htxt, hjson, hhtml]
  · by_cases hmd : endsWith name ".md".data = true <;>
      by_cases htxt : endsWith name ".txt".data = true <;>
      by_cases hjson : endsWith name ".json".data = true <;>
      by_cases hhtml : endsWith name ".html".data = true <;>
      simp_all [parse_documentS, parse_document, parse_markdown, parse_text,
        parse_json, parse_html]

/-- Witness for C3 at one filename per branch, with concrete bytes:
`hi` for the strict branch, `{"a": 1}` for the JSON branch, and an
invalid byte for the ignore branch. -/
theorem c3_witness :
    endsWith "a.md".data ".md".data = true ∧
      endsWith "b.json".data ".json".data = true ∧
      parse_document "a.md".data [104, 105] = .ok ['h', 'i'] ∧
      parse_document "b.json".data [123, 34, 97, 34, 58, 32, 49, 125] =
        .ok "\x7b\n  \"a\": 1\n\x7d".data ∧
      parse_document "c.bin".data [255, 104] = .ok ['h'] := by
  refine ⟨by decide, by decide, ?_, ?_, ?_⟩
  · exact ((c3_parse_document_dispatch "a.md".data [104, 105]).1
      (Or.inl (by decide))).trans rfl
  · exact ((c3_parse_document_dispatch "b.json".data
      [123, 34, 97, 34, 58, 32, 49, 125]).2.1 (by decide)).trans rfl
  · exact ((c3_parse_document_dispatch "c.bin".data [255, 104]).2.2.1
      ⟨by decide, by decide, by decide, by decide⟩).trans rfl

/-! ## C4 — chunk fields {text, source, start_offset} (corrected)

The backend splitter is built with `add_start_index=True`, so its chunks
carry all three fields; the streamlit splitter is built without it, so its
chunks carry no `start_index` at all. -/

/-- Every chunk that `create_documents` produces for one document with
`add_start_index=True` carries that document's source and some start
index. -/
theorem createDocsAux_fields (text src : List Char) :
    ∀ (cs : List (List Char)) (index : Int) (prevLen : Nat) (c : Chunk),
      c ∈ createDocsAux true text src cs index prevLen →
      c.source = src ∧ c.startIndex.isSome = true := by
  intro cs
  induction cs with
  | nil => intro index prevLen c h; simp [createDocsAux] at h
  | cons hd tl ih =>
    intro index prevLen c h
    simp only [createDocsAux, if_true, List.mem_cons] at h
    rcases h with h | h
    · subst h; exact ⟨rfl, rfl⟩
    · exact ih _ _ c h

/-- C4 counterexample: the streamlit ingestion's splitter omits
`add_start_index`, so the single chunk it derives from a one-document list
carries no start offset. -/
theorem c4_counterexample :
    (splitDocuments false [⟨"hello world".data, "a.txt".data⟩]).map Chunk.startIndex =
      [none] := by decide

/-- C4 as amended: every chunk persisted by the backend ingestion
(`rag.py`, `add_start_index=True`) carries all three fields — its text,
the source filename of the document it was derived from, and a start
offset; chunks from the streamlit ingestion carry only text and source. -/
theorem c4_amended_backend_chunk_fields :
    ∀ (docs : List Doc) (c : Chunk), c ∈ splitDocuments true docs →
      c.startIndex.isSome = true ∧ ∃ d ∈ docs, c.source = d.source := by
  intro docs c h
  simp only [splitDocuments, List.mem_flatMap] at h
  obtain ⟨d, hd, hc⟩ := h
  have := createDocsAux_fields d.content d.source (splitText d.content) 0 0 c hc
  exact ⟨this.2, d, hd, this.1⟩

/-- Witness for C4's amended statement: the chunk derived from a concrete
one-document list carries a start offset and its document's source. -/
theorem c4_witness :
    ((⟨"hi".data, "a.md".data, some 0⟩ : Chunk) ∈
        splitDocuments true [⟨"hi".data, "a.md".data⟩]) ∧
      ((⟨"hi".data, "a.md".data, some 0⟩ : Chunk).startIndex.isSome = true ∧
        ∃ d ∈ [(⟨"hi".data, "a.md".data⟩ : Doc)],
          (⟨"hi".data, "a.md".data, some 0⟩ : Chunk).source = d.source) :=
  ⟨by decide,
    c4_amended_backend_chunk_fields [⟨"hi".data, "a.md".data⟩]
      ⟨"hi".data, "a.md".data, some 0⟩ (by decide)⟩

/-! ## C1 — chunk sizes and overlap (corrected)

The claim reads the splitter as a plain sliding window: all chunks but the
last exactly 1000 characters, consecutive chunks overlapping by exactly
200. `RecursiveCharacterTextSplitter` instead splits at separator
boundaries and merges, so chunk lengths vary; the guarantee that does hold
is an upper bound of `chunk_size` on every chunk. -/

theorem sumLens_cons (d : List Char) (ds : List (List Char)) :
    sumLens (d :: ds) = d.length + sumLens ds := by
  simp [sumLens]

theorem sumLens_append (l1 l2 : List (List Char)) :
    sumLens (l1 ++ l2) = sumLens l1 + sumLens l2 := by
  simp [sumLens]

theorem pyStrip_length_le (s : List Char) : (pyStrip s).length ≤ s.length := by
  simp only [pyStrip, List.length_reverse]
  refine le_trans (List.dropWhile_suffix isPySpace).length_le ?_
  simpa using
    (show List.dropWhile isPySpace s <:+ s from List.dropWhile_suffix isPySpace).length_le

theorem joinSep_nil_length (ds : List (List Char)) :
    (joinSep [] ds).length = sumLens ds := by
  induction ds with
  | nil => rfl
  | cons d tl ih =>
    cases tl with
    | nil => simp [joinSep, sumLens]
    | cons e ds' =>
      simp only [joinSep, List.length_append, List.length_nil, sumLens_cons] at *
      omega

/-- A chunk flushed from the accumulator is no longer than the lengths it
merges (stripping can only shrink it). -/
theorem joinDocs_nil_le {cur : List (List Char)} {d : List Char}
    (h : joinDocs [] cur = some d) : d.length ≤ sumLens cur := by
  by_cases ht : pyStrip (joinSep [] cur) = []
  · simp [joinDocs, ht] at h
  · simp only [joinDocs, ht, if_neg, if_false] at h
    have hd : d = pyStrip (joinSep [] cur) := by
      simpa using h.symm
    rw [hd, ← joinSep_nil_length cur]
    exact pyStrip_length_le _

/-- The popping loop preserves `total = sumLens current` and exits with
`total ≤ chunk_overlap` and either room for the next piece or an empty
accumulator. -/
theorem popLoop_spec (cs ov dlen : Nat) :
    ∀ (cur : List (List Char)) (total : Nat), total = sumLens cur →
      (popLoop cs ov 0 dlen cur total).2 = sumLens (popLoop cs ov 0 dlen cur total).1 ∧
      (popLoop cs ov 0 dlen cur total).2 ≤ ov ∧
      ((popLoop cs ov 0 dlen cur total).2 + dlen ≤ cs ∨
        (popLoop cs ov 0 dlen cur total).2 = 0) := by
  intro cur
  induction cur with
  | nil =>
    intro total h
    have h0 : total = 0 := by simpa [sumLens] using h
    subst h0
    simp [popLoop, sumLens]
  | cons c cur2 ih =>
    intro total h
    have hsum : total = c.length + sumLens cur2 := by simpa [sumLens_cons] using h
    simp only [popLoop]
    split
    · exact ih _ (by simp only [ite_self]; omega)
    · next hc => exact ⟨h, by omega, by omega⟩

/-- Every chunk emitted by the merge loop (with the empty separator used
when `keep_separator=True`) is at most `chunk_size` long, provided every
piece is and the running accumulator is within bounds. -/
theorem mergeLoop_bound (cs ov : Nat) :
    ∀ (ds cur : List (List Char)) (total : Nat),
      (∀ s ∈ ds, s.length ≤ cs) → total = sumLens cur → total ≤ cs →
      ∀ d ∈ mergeLoop cs ov [] ds cur total, d.length ≤ cs := by
  intro ds
  induction ds with
  | nil =>
    intro cur total _ hinv hle d hd
    simp only [mergeLoop, Option.mem_toList, Option.mem_def] at hd
    exact le_trans (joinDocs_nil_le hd) (hinv ▸ hle)
  | cons s ds' ih =>
    intro cur total hds hinv hle d hd
    have hs : s.length ≤ cs := hds s (by simp)
    have hds' : ∀ x ∈ ds', x.length ≤ cs := fun x hx => hds x (by simp [hx])
    by_cases hcond : cs < total + s.length
    · cases cur with
      | nil =>
        have h0 : total = 0 := by simpa [sumLens] using hinv
        simp only [mergeLoop, List.length_nil, ite_self, Nat.add_zero,
          if_pos hcond] at hd
        exact ih [s] (total + s.length) hds' (by simp [sumLens, h0]) (by omega) d hd
      | cons c0 currest =>
        have hspec := popLoop_spec cs ov s.length (c0 :: currest) total hinv
        simp only [mergeLoop, List.length_nil, ite_self, Nat.add_zero,
          if_pos hcond, List.mem_append, Option.mem_toList, Option.mem_def] at hd
        rcases hd with hflush | hrest
        · exact le_trans (joinDocs_nil_le hflush) (hinv ▸ hle)
        · have hinv' : (popLoop cs ov 0 s.length (c0 :: currest) total).2 + s.length =
              sumLens ((popLoop cs ov 0 s.length (c0 :: currest) total).1 ++ [s]) := by
            rw [sumLens_append, ← hspec.1]
            simp [sumLens]
          have hle' : (popLoop cs ov 0 s.length (c0 :: currest) total).2 + s.length ≤ cs := by
            rcases hspec.2.2 with hroom | hzero
            · exact hroom
            · omega
          exact ih _ _ hds' hinv' hle' d hrest
    · simp only [mergeLoop, List.length_nil, ite_self, Nat.add_zero,
        if_neg hcond] at hd
      have hinv' : total + s.length +
          (if cur = [] then 0 else 0) = sumLens (cur ++ [s]) := by
        rw [sumLens_append, hinv]
        simp [sumLens]
      exact ih (cur ++ [s]) _ hds'
        (by simpa using hinv') (by omega) d hd

/-- Every chunk emitted by the per-piece loop of `_split_text` is at most
`chunk_size` long, provided the accumulated good pieces are short, the
recursion on oversized pieces is bounded, and — when no separators remain —
no oversized piece can occur at all. -/
theorem goSplits_bound (cs ov : Nat) (recurse : List Char → List (List Char))
    (hasNew : Bool)
    (hrec : hasNew = true → ∀ s c, c ∈ recurse s → c.length ≤ cs) :
    ∀ (splits good : List (List Char)),
      (∀ g ∈ good, g.length ≤ cs) →
      (hasNew = false → ∀ s ∈ splits, s.length < cs) →
      ∀ c ∈ goSplits cs ov recurse hasNew good splits, c.length ≤ cs := by
  intro splits
  induction splits with
  | nil =>
    intro good hgood _ c hc
    by_cases hg : good = []
    · simp [goSplits, hg] at hc
    · simp only [goSplits, if_neg hg] at hc
      exact mergeLoop_bound cs ov good [] 0 hgood rfl (Nat.zero_le _) c hc
  | cons s rest ih =>
    intro good hgood hfalse c hc
    by_cases hs : s.length < cs
    · simp only [goSplits, if_pos hs] at hc
      refine ih (good ++ [s]) ?_ ?_ c hc
      · intro g hg
        rcases List.mem_append.mp hg with hg | hg
        · exact hgood g hg
        · simp at hg; subst hg; omega
      · exact fun hf s' hs' => hfalse hf s' (by simp [hs'])
    · simp only [goSplits, if_neg hs, List.mem_append] at hc
      rcases hc with (hmerge | hmid) | hrest
      · by_cases hg : good = []
        · simp [hg] at hmerge
        · rw [if_neg hg] at hmerge
          exact mergeLoop_bound cs ov good [] 0 hgood rfl (Nat.zero_le _) c hmerge
      · cases hn : hasNew with
        | true => exact hrec hn s c (by simpa [hn] using hmid)
        | false => exact absurd (hfalse hn s (by simp)) hs
      · exact ih [] (by simp) (fun hf s' hs' => hfalse hf s' (by simp [hs'])) c hrest

theorem chooseSep_spec (text : List Char) :
    ∀ seps : List (List Char), seps.getLast? = some [] →
      ((chooseSep text seps).2 = [] → (chooseSep text seps).1 = []) ∧
      ((chooseSep text seps).2 ≠ [] → (chooseSep text seps).2.getLast? = some []) := by
  intro seps
  induction seps with
  | nil => intro h; simp at h
  | cons s tl ih =>
    intro h
    cases tl with
    | nil =>
      have hs : s = [] := by simpa [List.getLast?] using h
      subst hs
      exact ⟨fun _ => rfl, fun hne => absurd rfl hne⟩
    | cons s2 rest =>
      have htl : (s2 :: rest).getLast? = some [] := by
        rw [← List.getLast?_cons_cons]
        exact h
      by_cases hse : s = []
      · simp [chooseSep, hse]
      · by_cases hocc : subOccurs s text
        · refine ⟨?_, ?_⟩ <;> simp only [chooseSep, if_neg hse, if_pos hocc]
          · intro hx; exact absurd hx (by simp)
          · exact fun _ => htl
        · simp only [chooseSep, if_neg hse, if_neg hocc]
          exact ih htl

theorem splitWithKeep_nil_len (text : List Char) :
    ∀ s ∈ splitWithKeep [] text, s.length = 1 := by
  intro s hs
  simp [splitWithKeep] at hs
  obtain ⟨⟨c, _, rfl⟩, _⟩ := hs
  rfl

/-- Every chunk produced by `_split_text` is at most `chunk_size` long,
for any separator list ending in `""` (as the default list and each of its
suffixes chosen along the recursion do). -/
theorem splitTextFuel_bound (cs ov : Nat) (hcs : 1 < cs) :
    ∀ (fuel : Nat) (seps : List (List Char)) (text : List Char),
      seps.getLast? = some [] →
      ∀ c ∈ splitTextFuel cs ov fuel seps text, c.length ≤ cs := by
  intro fuel
  induction fuel with
  | zero => intro seps text _ c hc; simp [splitTextFuel] at hc
  | succ fuel ih =>
    intro seps text hlast c hc
    simp only [splitTextFuel] at hc
    have hspec := chooseSep_spec text seps hlast
    refine goSplits_bound cs ov _ _ ?_ _ [] (by simp) ?_ c hc
    · intro hnew s' c' hc'
      have h2 : (chooseSep text seps).2 ≠ [] := by
        simpa [List.isEmpty_iff] using hnew
      exact ih (chooseSep text seps).2 s' (hspec.2 h2) c' hc'
    · intro hf s' hs'
      have h2 : (chooseSep text seps).2 = [] := by
        simpa [List.isEmpty_iff] using hf
      have h1 : (chooseSep text seps).1 = [] := hspec.1 h2
      have := splitWithKeep_nil_len text s' (h1 ▸ hs')
      omega

theorem splitText_bound (text : List Char) :
    ∀ c ∈ splitText text, c.length ≤ 1000 := by
  intro c hc
  unfold splitText at hc
  exact splitTextFuel_bound 1000 200 (by norm_num) _ _ text (by decide) c hc

/-- The text of every chunk `create_documents` builds is one of the pieces
`split_text` returned. -/
theorem createDocsAux_text_mem (flag : Bool) (text src : List Char) :
    ∀ (pieces : List (List Char)) (i : Int) (p : Nat) (c : Chunk),
      c ∈ createDocsAux flag text src pieces i p → c.text ∈ pieces := by
  intro pieces
  induction pieces with
  | nil => intro i p c h; simp [createDocsAux] at h
  | cons hd tl ih =>
    intro i p c h
    cases flag with
    | false =>
      simp only [createDocsAux, Bool.false_eq_true, if_false, List.mem_cons] at h
      rcases h with h | h
      · subst h; exact List.mem_cons_self _ _
      · exact List.mem_cons_of_mem _ (ih _ _ c h)
    | true =>
      simp only [createDocsAux, if_true, List.mem_cons] at h
      rcases h with h | h
      · subst h; exact List.mem_cons_self _ _
      · exact List.mem_cons_of_mem _ (ih _ _ c h)

/-- The length of the longest suffix of `a` that is a prefix of `b`: the
"overlap" of two consecutive chunks. -/
def consecutiveOverlap (a b : List Char) : Nat :=
  ((List.range (min a.length b.length + 1)).filter
    (fun k => a.drop (a.length - k) == b.take k)).foldr max 0

/-- C1 as claimed: with `chunk_size=1000, chunk_overlap=200`, every chunk
of a document except possibly the last has length exactly 1000, and each
pair of consecutive chunks overlaps by exactly 200 characters. -/
def claimC1At (text : List Char) : Prop :=
  (∀ i : Nat, i + 1 < (splitText text).length →
    ((splitText text).getD i []).length = 1000) ∧
  (∀ i : Nat, i + 1 < (splitText text).length →
    consecutiveOverlap ((splitText text).getD i []) ((splitText text).getD (i + 1) []) = 200)

/-- A 1102-character document: 500 `a`s, a blank line, 600 `b`s. The
splitter cuts at the blank line, producing chunks of lengths 500 and 600
with no overlap. -/
def c1Text : List Char :=
  List.replicate 500 'a' ++ '\n' :: '\n' :: List.replicate 600 'b'

/-- C1 counterexample: on `c1Text` the first (non-final) chunk has length
500, not 1000, so the fixed-size sliding-window reading of the chunker is
false. -/
theorem c1_counterexample : ¬ claimC1At c1Text := by
  intro h
  have hn : 0 + 1 < (splitText c1Text).length := by decide
  have hlen : ((splitText c1Text).getD 0 []).length = 500 := by decide
  have := h.1 0 hn
  omega

/-- C1 as amended: chunking splits at the separator hierarchy
`["\n\n", "\n", " ", ""]` and merges, so with `chunk_size=1000` every
produced chunk — of `split_text` itself and of every chunk list either
ingestion implementation derives from its documents — has length at most
1000 characters; lengths of exactly 1000 and overlaps of exactly 200 are
not guaranteed. -/
theorem c1_amended_chunk_size_bound :
    (∀ (text : List Char) (c : List Char), c ∈ splitText text → c.length ≤ 1000) ∧
    (∀ (flag : Bool) (docs : List Doc) (ch : Chunk),
      ch ∈ splitDocuments flag docs → ch.text.length ≤ 1000) := by
  constructor
  · exact fun text => splitText_bound text
  · intro flag docs ch hch
    simp only [splitDocuments, List.mem_flatMap] at hch
    obtain ⟨d, _, hc⟩ := hch
    exact splitText_bound d.content _
      (createDocsAux_text_mem flag d.content d.source (splitText d.content) 0 0 ch hc)

/-- Witness for C1's amended statement at a concrete two-word document. -/
theorem c1_witness :
    ("hello world".data ∈ splitText "hello world".data) ∧
      ("hello world".data : List Char).length ≤ 1000 :=
  ⟨by decide,
    c1_amended_chunk_size_bound.1 "hello world".data "hello world".data (by decide)⟩

end QAgent
